import Mathlib

/-!
Verification development for the boykies-server streaming relay.

We shallowly embed the streaming-proxy/buffering engine of the repository:
the Request Builder (`slimPlayers`), the SSE frame extraction loop of
`src/routes/draft.js`, the buffered aggregation loop of
`UnifiedDifyClient.postStreamingBuffered`, the preflight checks of both
implementations, the pass-through cancellation handler, and the
overall-deadline timer discipline of each implementation.

Character sequences are modelled as `List Char` (JS strings at character
granularity; `TextDecoder` byte reassembly is below this abstraction).
`JSON.parse` is an external runtime facility, so the embedding is
parameterised by a decode oracle `Str → Option DifyEvent`; theorems that
need concrete decodes take the value of the oracle on the concrete payload
strings as hypotheses, and witnesses instantiate the oracle with a finite
table agreeing with real JSON semantics on those strings.
-/

/-- JS strings, at character granularity. -/
abbrev Str := List Char

/-- JS `String.prototype.split` at a newline: `n` separators give `n + 1` pieces
(the piece after the last separator may be empty). -/
def jsSplitNl (s : Str) : List Str :=
  s.foldr
    (fun c acc =>
      match acc with
      | [] => [[c]]
      | cur :: rest => if c = '\n' then [] :: (cur :: rest) else (c :: cur) :: rest)
    [[]]

/-- JS `String.prototype.includes(nee)` on `hay`. -/
def containsSeq (nee : Str) : Str → Bool
  | [] => nee.isEmpty
  | c :: t => nee.isPrefixOf (c :: t) || containsSeq nee t

/-- JS `String.prototype.trim()` (whitespace stripped from both ends). -/
def jsTrim (s : Str) : Str :=
  ((s.dropWhile Char.isWhitespace).reverse.dropWhile Char.isWhitespace).reverse

/-- JS `String.prototype.toLowerCase()` (ASCII-adequate model). -/
def toLowerStr (s : Str) : Str := s.map Char.toLower

/-- JS truthiness of a string: non-empty. -/
def truthy (s : Str) : Bool := ¬ s.isEmpty

/-- `a || b` for an optional string field `a` (JS: `undefined` and `""` are
falsy, so they fall through to `b`). -/
def jsOrStr (a : Option Str) (b : Option Str) : Option Str :=
  match a with
  | some s => if s.isEmpty then b else some s
  | none => b

/-! ## Request Builder: `slimPlayers`
From `src/helpers/slimPlayers.js` lines 5-46 and the identical
`slimPlayers` in the unified-client module (part_001 lines 1211-1229):
cap the array at `max` elements (`players.slice(0, max)`), and for each
element keep exactly the allow-listed fields it has
(`Object.prototype.hasOwnProperty`), truncating string values longer than
`maxStr` (`v.slice(0, maxStr)`).  Field values are modelled as either a
string or an opaque non-string value; a player is an association list of
(field name, value) with distinct keys, mirroring a JS object. -/

inductive FieldVal where
  | vstr (s : Str)
  | vraw (tag : Nat)
deriving DecidableEq, Repr

abbrev Player := List (Str × FieldVal)

/-- `Object.prototype.hasOwnProperty.call(p, k)`. -/
def hasField (k : Str) (p : Player) : Bool := p.any (fun kv => kv.1 = k)

/-- Read field `k` of `p` (first binding wins, as in a JS object with
distinct keys). -/
def lookupField (k : Str) (p : Player) : Option FieldVal :=
  (p.find? (fun kv => kv.1 = k)).map Prod.snd

/-- The keys of a player object, in insertion order. -/
def fieldKeys (p : Player) : List Str := p.map Prod.fst

/-- `v.slice(0, maxStr)` applied to string values longer than `maxStr`. -/
def truncVal (maxStr : Nat) : FieldVal → FieldVal
  | .vstr s => if maxStr < s.length then .vstr (s.take maxStr) else .vstr s
  | .vraw t => .vraw t

/-- One element of the Request Builder output: iterate the allow-list in
order, copying (and truncating) each field the input element has. -/
def slimPlayer (allowed : List Str) (maxStr : Nat) (p : Player) : Player :=
  allowed.filterMap (fun k =>
    match lookupField k p with
    | some v => some (k, truncVal maxStr v)
    | none => none)

/-- `slimPlayers`: cap at `maxN` elements, then slim each element. -/
def slimPlayers (allowed : List Str) (maxN maxStr : Nat) (players : List Player) :
    List Player :=
  (players.take maxN).map (slimPlayer allowed maxStr)

/-! ## Upstream frames and the decode oracle -/

/-- One decoded upstream SSE payload, as the consumers read its fields
(`data.event`, `data.answer`, `data.conversation_id`, `data.id`,
`data.thought`, `data.message`).  A missing field is `none`. -/
structure DifyEvent where
  event : Str
  answer : Option Str
  conversation_id : Option Str
  id : Option Str
  thought : Option Str
  message : Option Str
deriving DecidableEq, Repr

/-- A frame emitted by the pass-through route: a decoded event, or the raw
payload passed through as text when `JSON.parse` fails. -/
inductive PassFrame where
  | evt (e : DifyEvent)
  | rawText (p : Str)
deriving DecidableEq, Repr

/-! ## Frame extraction, `src/routes/draft.js` lines 342-420
The route keeps a growable text buffer; on each chunk it appends and
repeatedly slices off everything before the first `"\n\n"`
(`buffer.indexOf` of a double newline), yielding one frame per slice.  Each frame is
split into lines; lines starting with `data:` are kept, their payload is
`line.slice(5).trim()`, empty payloads are dropped, and the literal
`[DONE]` payload is skipped without emitting a frame. -/

/-- Split off the part of `s` before the first occurrence of two
consecutive newlines, together with the rest (the two newlines removed) —
`buffer.indexOf` of a double newline plus the two slices.  `none` when there is no
occurrence. -/
def sseSplitFrame : Str → Option (Str × Str)
  | [] => none
  | c :: t =>
    if c = '\n' ∧ t.head? = some '\n' then some ([], t.tail)
    else (sseSplitFrame t).map (fun fr => (c :: fr.1, fr.2))

/-- The inner `while` loop over `buffer.indexOf` of a double newline, with
explicit fuel (the input length always suffices; see
`sseExtractFuel_eq_extract`).  Returns the extracted frames in order and
the final buffer residue. -/
def sseExtractFuel : Nat → Str → List Str × Str
  | 0, s => ([], s)
  | n + 1, s =>
    match sseSplitFrame s with
    | none => ([], s)
    | some (f, r) =>
      let p := sseExtractFuel n r
      (f :: p.1, p.2)

/-- Extract every complete frame from `s`, leaving the residue buffered. -/
def sseExtract (s : Str) : List Str × Str := sseExtractFuel s.length s

/-- The outer read loop: feed each arriving chunk into the buffer and
extract the frames that are complete.  Returns all emitted frames in
order and the final buffer. -/
def sseRunFrom (buf : Str) : List Str → List Str × Str
  | [] => ([], buf)
  | c :: cs =>
    let p := sseExtract (buf ++ c)
    let q := sseRunFrom p.2 cs
    (p.1 ++ q.1, q.2)

/-- Per-frame data extraction (`draft.js` lines 379-383): split the frame
into lines, keep lines starting with `data:`, take `line.slice(5).trim()`,
drop empty payloads. -/
def frameDatas (frame : Str) : List Str :=
  ((((jsSplitNl frame).filter
      (fun l => List.isPrefixOf ("data:".data) l)).map
      (fun l => jsTrim (l.drop 5))).filter (fun p => ¬ p.isEmpty))

/-- Per-payload emission (`draft.js` lines 385-418): `[DONE]` is skipped;
otherwise the payload decodes to an event frame, or passes through as a
text frame when decoding fails. -/
def decodeData (dec : Str → Option DifyEvent) (p : Str) : List PassFrame :=
  if p = "[DONE]".data then []
  else
    match dec p with
    | some e => [PassFrame.evt e]
    | none => [PassFrame.rawText p]

/-- The ordered sequence of frames the pass-through route produces from a
sequence of raw chunks. -/
def sseFrames (dec : Str → Option DifyEvent) (chunks : List Str) : List PassFrame :=
  (((sseRunFrom [] chunks).1.map
    (fun fr => ((frameDatas fr).map (decodeData dec)).flatten)).flatten)

/-! ## Buffered aggregation, `UnifiedDifyClient.postStreamingBuffered`
(part_001 lines 888-1018).  The loop splits the buffer on single
newlines, keeps the trailing incomplete line buffered, and for each line
starting with `"data: "` runs `JSON.parse(line.slice(6))` and dispatches
on `data.event` — all inside one `try { ... } catch (parseError)` whose
handler skips the line. -/

/-- The mutable accumulator of the buffered loop
(`finalAnswer`, `finalConversationId`, `messageId`). -/
structure BufState where
  finalAnswer : Str
  finalConvId : Option Str
  messageId : Option Str
deriving DecidableEq, Repr

/-- The event dispatch (part_001 lines 936-962), written exception-style:
`Except.error` is the `throw` for an explicit `error` event.
`message` appends `data.answer` (empty when absent) and updates
`finalConversationId = data.conversation_id || finalConversationId`,
`messageId = data.id || messageId`; `agent_message` appends the answer
only; `agent_thought` sets the answer from `data.thought` only when the
accumulator is still empty; `message_end` breaks the line loop; any other
event is counted and otherwise ignored. -/
def dispatchEvent (st : BufState) (d : DifyEvent) : Except Str (BufState × Bool) :=
  if d.event = "message".data then
    .ok (⟨st.finalAnswer ++ (d.answer.getD []),
         jsOrStr d.conversation_id st.finalConvId,
         jsOrStr d.id st.messageId⟩, false)
  else if d.event = "agent_message".data then
    .ok (⟨st.finalAnswer ++ (d.answer.getD []), st.finalConvId, st.messageId⟩, false)
  else if d.event = "agent_thought".data then
    .ok (⟨(if truthy (d.thought.getD []) ∧ st.finalAnswer.isEmpty
          then d.thought.getD [] else st.finalAnswer),
         st.finalConvId, st.messageId⟩, false)
  else if d.event = "message_end".data then
    .ok (st, true)
  else if d.event = "error".data then
    .error ("Dify stream error: ".data ++
      (match d.message with
       | some m => if m.isEmpty then "Unknown error".data else m
       | none => "Unknown error".data))
  else .ok (st, false)

/-- One line of the loop body.  A line not starting with `"data: "` is
ignored.  Both a `JSON.parse` failure and any exception raised inside the
dispatch land in the same `catch (parseError)` (part_001 lines 963-966),
which logs and skips the line — in particular the `throw` for an `error`
event is swallowed here.  The second component is the `break` flag. -/
def processLine (dec : Str → Option DifyEvent) (st : BufState) (line : Str) :
    BufState × Bool :=
  if List.isPrefixOf ("data: ".data) line then
    match dec (line.drop 6) with
    | none => (st, false)
    | some d =>
      match dispatchEvent st d with
      | .ok r => r
      | .error _ => (st, false)
  else (st, false)

/-- The `for (const line of lines)` loop with its `break`: a break skips
the remaining lines of this chunk only. -/
def runLines (dec : Str → Option DifyEvent) (st : BufState) : List Str → BufState
  | [] => st
  | l :: ls =>
    let p := processLine dec st l
    if p.2 then p.1 else runLines dec p.1 ls

/-- The loop-carried state: the split buffer plus the accumulator. -/
structure BufLoop where
  buffer : Str
  st : BufState
deriving DecidableEq, Repr

/-- One chunk of the while loop (part_001 lines 923-928): append to the
buffer, split on newlines, keep the last (possibly incomplete) piece as
the new buffer, and feed the complete lines to the line loop. -/
def feedChunk (dec : Str → Option DifyEvent) (L : BufLoop) (chunk : Str) : BufLoop :=
  let parts := jsSplitNl (L.buffer ++ chunk)
  ⟨(parts.getLast?).getD [], runLines dec L.st parts.dropLast⟩

/-- The whole read loop over the arriving chunks. -/
def runChunks (dec : Str → Option DifyEvent) (L : BufLoop) (cs : List Str) : BufLoop :=
  cs.foldl (feedChunk dec) L

/-! ## Finalization: the reasoning-markup strip
`finalAnswer.replace` of the global case-insensitive non-greedy think-tag pattern with the empty string, then `trim`
(part_001 lines 977-979), applied once, only when `finalAnswer` is
truthy. -/

/-- Strip `tag` (given lowercase) from the head of `s`, comparing
case-insensitively; return the rest on success. -/
def ciStripTag : Str → Str → Option Str
  | [], s => some s
  | _ :: _, [] => none
  | t :: ts, c :: cs => if c.toLower = t then ciStripTag ts cs else none

/-- Scan for the first case-insensitive `</think>` and return the suffix
after it (the non-greedy close of the match). -/
def findCloseThink : Str → Option Str
  | [] => none
  | c :: cs =>
    match ciStripTag ("</think>".data) (c :: cs) with
    | some rest => some rest
    | none => findCloseThink cs

/-- Left-to-right scan of the global regex: at each position, if a
case-insensitive `<think>` begins here and a `</think>` follows, drop
through the close tag and continue after it; otherwise keep the character
and move on.  Fuel (the input length always suffices, since every
recursive call is on a strictly shorter list). -/
def stripThinkFuel : Nat → Str → Str
  | 0, s => s
  | _ + 1, [] => []
  | n + 1, c :: cs =>
    match ciStripTag ("<think>".data) (c :: cs) with
    | some afterOpen =>
      match findCloseThink afterOpen with
      | some afterClose => stripThinkFuel n afterClose
      | none => c :: stripThinkFuel n cs
    | none => c :: stripThinkFuel n cs

/-- Remove every paired `<think>...</think>` region. -/
def stripThink (s : Str) : Str := stripThinkFuel s.length s

/-- Finalization (part_001 lines 977-979): the strip-plus-trim pass runs
once, and only on a truthy (non-empty) accumulated answer. -/
def finalizeAnswer (a : Str) : Str :=
  if a.isEmpty then a else jsTrim (stripThink a)

/-! ## Buffered session outcome and error classification
(part_001 lines 969-974 and 1000-1018). -/

/-- Decimal rendering of a number, for interpolated messages. -/
def natStr (n : Nat) : Str := (Nat.repr n).data

/-- Why the in-flight `reader.read()` raised `AbortError`. -/
inductive AbortCause where
  | deadline
  | callerSignal
deriving DecidableEq, Repr

/-- An exception ending the read loop: the `AbortError` of an abort, or
any other stream error (name, message). -/
inductive StreamExc where
  | abortErr (cause : AbortCause)
  | otherErr (name msg : Str)
deriving DecidableEq, Repr

/-- How the read loop ends: the reader reports `done`, or an exception. -/
inductive StreamEnd where
  | done
  | exc (e : StreamExc)
deriving DecidableEq, Repr

/-- The inner `catch (streamError)` (part_001 lines 969-974): an
`AbortError` is rethrown as an `Error` whose message is `Stream timeout after <timeoutMs>ms`;
anything else is rethrown unchanged.  Result: (name, message) of the
error that reaches the outer catch. -/
def innerCatch (timeoutMs : Nat) : StreamExc → Str × Str
  | .abortErr _ =>
    ("Error".data, "Stream timeout after ".data ++ natStr timeoutMs ++ "ms".data)
  | .otherErr n m => (n, m)

/-- The `errorType` of the outer catch classification (part_001 lines
1004-1010). -/
def classifyBufferedError (nm : Str × Str) : Str :=
  if nm.1 = "AbortError".data || containsSeq ("timeout".data) nm.2 then "timeout".data
  else if containsSeq ("buffer overflow".data) nm.2 then "buffer_overflow".data
  else "stream_error".data

/-- The value `postStreamingBuffered` resolves with: on success
(lines 981-996) the finalized answer plus metadata; on failure
(lines 1012-1018) the classified error type and message. -/
structure BufResult where
  ok : Bool
  answer : Str
  conversationId : Option Str
  msgId : Option Str
  errKind : Str
  errMessage : Str
deriving DecidableEq, Repr

/-- The buffered session after a successful connection: run the read loop
over the chunks, then either finalize (reader `done`) or map the
exception through both catches. -/
def postStreamingBuffered (dec : Str → Option DifyEvent) (timeoutMs : Nat)
    (initConvId : Option Str) (chunks : List Str) (ending : StreamEnd) : BufResult :=
  let L := runChunks dec ⟨[], ⟨[], initConvId, none⟩⟩ chunks
  match ending with
  | .done =>
    ⟨true, finalizeAnswer L.st.finalAnswer, L.st.finalConvId, L.st.messageId, [], []⟩
  | .exc e =>
    let nm := innerCatch timeoutMs e
    ⟨false, [], none, none, classifyBufferedError nm, nm.2⟩

/-! ## Preflight checks
`src/routes/draft.js` lines 296-333 and
`UnifiedDifyClient.postStreaming` / `mapResponseError`
(part_001 lines 861-870 and 1053-1087). -/

/-- `response.ok`: the status is in the 2xx range. -/
def statusOkB (status : Nat) : Bool := 200 ≤ status && status ≤ 299

/-- `contentType.includes` of `text/event-stream`. -/
def ctIsEventStream (ct : Str) : Bool := containsSeq ("text/event-stream".data) ct

/-- The one NDJSON error record of the preflight failure branch
(`draft.js` lines 317-331): classification `bad_upstream_status`, the
status, the declared content type, and a bounded preview of the body. -/
structure PreflightErr where
  status : Nat
  contentType : Str
  bodyPrev : Str
deriving DecidableEq, Repr

/-- The preflight of the route (`draft.js` lines 296-333): proceed only when
the status is ok AND the content type declares an event stream; otherwise
build the single error record, previewing the first 200 characters of the
body. -/
def draftPreflight (status : Nat) (ct body : Str) : Option PreflightErr :=
  if statusOkB status && ctIsEventStream ct then none
  else some ⟨status, ct, body.take 200⟩

/-- The whole route-session gate: the preflight error record (if any)
and the frames that get parsed (none unless the preflight passes;
`return` at line 332 precedes the reader loop). -/
def draftInitSession (dec : Str → Option DifyEvent) (status : Nat) (ct body : Str)
    (chunks : List Str) : Option PreflightErr × List PassFrame :=
  match draftPreflight status ct body with
  | some e => (some e, [])
  | none => (none, sseFrames dec chunks)

/-- The classified failure object built by `mapResponseError` of the unified client (part_001 lines 1053-1087). -/
structure UpErr where
  mappedStatus : Nat
  kind : Str
  snippet : Str
deriving DecidableEq, Repr

/-- `mapResponseError`: 404 with `conversation` in the lowercased body →
`invalid_conversation` (409); 5xx → `upstream_error` (502); otherwise
`bad_request` (400).  The snippet is the first 600 characters. -/
def mapResponseError (status : Nat) (body : Str) : UpErr :=
  if status = 404 && containsSeq ("conversation".data) (toLowerStr body) then
    ⟨409, "invalid_conversation".data, body.take 600⟩
  else if 500 ≤ status then ⟨502, "upstream_error".data, body.take 600⟩
  else ⟨400, "bad_request".data, body.take 600⟩

/-- The preflight of the unified client (part_001 lines 861-867): only
`response.ok` is checked — the content type is not consulted — and a
non-ok response is thrown as the mapped error before any frame is
consumed. -/
def unifiedPreflight (status : Nat) (body : Str) : Except UpErr Unit :=
  if statusOkB status then .ok () else .error (mapResponseError status body)

/-! ## Pass-through cancellation, `draft.js` lines 440-497
The catch distinguishes the abort reason set on the controller:
`controller.abort` with reason `timeout` from the safety timer (line 224)
versus `controller.abort` with a `client-aborted` Error from the `aborted`
handler on the request (line 231). -/

/-- One NDJSON record written to the caller, reduced to what the claims
consume: its `event` tag, and `data.error` / `data.message` when it is an
error record. -/
structure OutRec where
  event : Str
  errKind : Option Str
  errMsg : Option Str
deriving DecidableEq, Repr

/-- Forwarding of an upstream frame (`draft.js` lines 396-403): the
`event` of the record is `data.event`. -/
def fwdRec (e : DifyEvent) : OutRec := ⟨e.event, none, none⟩

/-- Which abort reason the cancellation token carries. -/
inductive AbortReason where
  | rTimeout
  | rClient
deriving DecidableEq, Repr

/-- Records written by the `catch (streamError)` branch for an
`AbortError` (lines 445-466): an optional debug record (only when
`debug=1` and the client aborted), then exactly one `timeout` error
record when `controller.signal.reason` is `timeout`, and nothing for a
client disconnect. -/
def draftCatchAbort (reason : AbortReason) (debugFlag clientFlag : Bool) :
    List OutRec :=
  (if debugFlag && clientFlag then [⟨"debug".data, none, none⟩] else []) ++
  (match reason with
   | .rTimeout =>
     [⟨"error".data, some ("timeout".data), some ("Stream timeout after 235s".data)⟩]
   | .rClient => [])

/-- A pass-through session cancelled mid-stream: the frames forwarded
before the abort, then the records of the catch; the `finally` only clears the
timers and ends the response. -/
def cancelledPassThrough (pre : List DifyEvent) (reason : AbortReason)
    (debugFlag clientFlag : Bool) : List OutRec :=
  pre.map fwdRec ++ draftCatchAbort reason debugFlag clientFlag

/-- Is the record an error record? -/
def isErrorRec (r : OutRec) : Bool := r.event = "error".data

/-! ## Overall-deadline timer discipline
Transcriptions of the order in which each implementation arms and
disarms its overall deadline around connection opening, frame
consumption and teardown. -/

/-- The observable timer/session operations. -/
inductive SessStep where
  | armDeadline
  | disarmDeadline
  | openUpstream
  | consumeFrame
  | finishSession
deriving DecidableEq, Repr

/-- Whether the overall deadline is armed after the given operations. -/
def deadlineArmed (steps : List SessStep) : Bool :=
  steps.foldl
    (fun armed s =>
      match s with
      | .armDeadline => true
      | .disarmDeadline => false
      | _ => armed)
    false

/-- A state is mid-session when the upstream connection has been opened
and the session has not yet finished. -/
def midSession (steps : List SessStep) : Bool :=
  steps.contains .openUpstream && !(steps.contains .finishSession)

/-- `draft.js` initialize route: `setTimeout` (line 219), `fetch`
(line 282) with the timeout deliberately NOT cleared after the fetch
(comment at lines 293-294), the reader loop, and `clearTimeout` only in
the `finally` (line 492) after the session finished. -/
def draftInitScript (n : Nat) : List SessStep :=
  [.armDeadline, .openUpstream] ++ List.replicate n .consumeFrame ++
    [.finishSession, .disarmDeadline]

/-- `UnifiedDifyClient.postStreaming` (part_001 lines 835, 852, 859):
`setTimeout`, `fetch`, then `clearTimeout` as soon as the response
resolves — before `postStreamingBuffered` consumes a single frame.  The
wrapper `sendToDifyStreaming` (part_001 lines 1457, 1500-1509) does the
same: it clears both timers right after `postStreaming` returns and
streams the body afterwards. -/
def unifiedStreamScript (n : Nat) : List SessStep :=
  [.armDeadline, .openUpstream, .disarmDeadline] ++
    List.replicate n .consumeFrame ++ [.finishSession]

/-! ## Concrete payloads and a concrete decode table
These transcribe the values of `JSON.parse` on the specific payload
strings used by the scenario runs (braces written as their escapes). -/

/-- A plain `message` frame carrying an answer delta. -/
def msgEvt (d : Str) : DifyEvent := ⟨"message".data, some d, none, none, none, none⟩

/-- The terminal `message_end` frame. -/
def endEvt : DifyEvent := ⟨"message_end".data, none, none, none, none, none⟩

/-- An explicit `error` frame with message `boom`. -/
def errEvtBoom : DifyEvent := ⟨"error".data, none, none, none, none, some ("boom".data)⟩

/-- A `message` frame carrying an answer delta and a conversation id. -/
def cidEvt (ans cid : Str) : DifyEvent :=
  ⟨"message".data, some ans, some cid, none, none, none⟩

/-- One SSE line chunk as the unified client receives it. -/
def mkDataChunk (p : Str) : Str := "data: ".data ++ p ++ ['\n']

def pMsgHel : Str := "\x7b\"event\":\"message\",\"answer\":\"Hel\"\x7d".data

def pMsgLo : Str := "\x7b\"event\":\"message\",\"answer\":\"lo\"\x7d".data

def pMsgHello : Str := "\x7b\"event\":\"message\",\"answer\":\"Hello\"\x7d".data

def pThink : Str := "\x7b\"event\":\"message\",\"answer\":\"<think>ignore</think>Hello\"\x7d".data

def pEnd : Str := "\x7b\"event\":\"message_end\"\x7d".data

def pErrBoom : Str := "\x7b\"event\":\"error\",\"message\":\"boom\"\x7d".data

def pCidA : Str := "\x7b\"event\":\"message\",\"answer\":\"x\",\"conversation_id\":\"A\"\x7d".data

def pCidB : Str := "\x7b\"event\":\"message\",\"answer\":\"y\",\"conversation_id\":\"B\"\x7d".data

/-- The 401 body of the preflight scenario. -/
def uBody : Str := "\x7b\"error\":\"unauthorized\"\x7d".data

/-- The decode oracle restricted to the concrete payloads above, agreeing
with `JSON.parse` on each of them (and failing elsewhere). -/
def jsonTable : Str → Option DifyEvent := fun s =>
  if s = pMsgHel then some (msgEvt ("Hel".data))
  else if s = pMsgLo then some (msgEvt ("lo".data))
  else if s = pMsgHello then some (msgEvt ("Hello".data))
  else if s = pThink then some (msgEvt ("<think>ignore</think>Hello".data))
  else if s = pEnd then some endEvt
  else if s = pErrBoom then some errEvtBoom
  else if s = pCidA then some (cidEvt ("x".data) ("A".data))
  else if s = pCidB then some (cidEvt ("y".data) ("B".data))
  else none

/-- An encoder pairing each concrete delta with its JSON payload. -/
def encTable : Str → Str := fun d =>
  if d = "Hel".data then pMsgHel
  else if d = "lo".data then pMsgLo
  else if d = "Hello".data then pMsgHello
  else if d = "<think>ignore</think>Hello".data then pThink
  else []

/-- A two-frame upstream byte sequence: a frame whose data payload is the
literal `[DONE]`, then a frame carrying the terminal event. -/
def c9Full : Str :=
  ("event: message\ndata: [DONE]\n\ndata: \x7b\"event\":\"message_end\"\x7d\n\n").data

/-- The same bytes delivered one character per chunk. -/
def c9Chunks1 : List Str := c9Full.map (fun c => [c])

/-- The same bytes delivered as a single chunk. -/
def c9Chunks2 : List Str := [c9Full]

/-- A concrete allow-list for the Request Builder scenario. -/
def cAllowed : List Str := ["id".data, "name".data]

/-- 260 identical input elements for the truncation scenario. -/
def cPlayers260 : List Player :=
  List.replicate 260 [("name".data, FieldVal.vstr ("abcdefgh".data))]

/-! ## Lemmas about the Request Builder -/

theorem hasField_eq_isSome (k : Str) (p : Player) :
    hasField k p = (lookupField k p).isSome := by
  induction p with
  | nil => simp [hasField, lookupField]
  | cons kv t ih =>
    by_cases h : kv.1 = k
    · simp [hasField, lookupField, List.find?_cons, h]
    · simp [hasField, lookupField, List.find?_cons, h] at ih ⊢
      exact ih

theorem slimPlayer_keys (allowed : List Str) (maxStr : Nat) (p : Player) :
    fieldKeys (slimPlayer allowed maxStr p) = allowed.filter (fun k => hasField k p) := by
  induction allowed with
  | nil => simp [slimPlayer, fieldKeys]
  | cons a as ih =>
    cases h : lookupField a p with
    | none =>
      have hf : hasField a p = false := by
        rw [hasField_eq_isSome, h]
        rfl
      simp [slimPlayer, List.filterMap_cons, h, List.filter_cons, hf] at ih ⊢
      exact ih
    | some v =>
      have hf : hasField a p = true := by
        rw [hasField_eq_isSome, h]
        rfl
      simp [slimPlayer, List.filterMap_cons, h, List.filter_cons, hf, fieldKeys] at ih ⊢
      exact ih

theorem truncVal_str_le (maxStr : Nat) (v : FieldVal) (s : Str)
    (h : truncVal maxStr v = .vstr s) : s.length ≤ maxStr ∨ v = .vstr s := by
  cases v with
  | vstr s0 =>
    by_cases hl : maxStr < s0.length
    · simp [truncVal, hl] at h
      left
      simp [← h, List.length_take]
    · simp [truncVal, hl] at h
      right
      simp [h]
  | vraw t => simp [truncVal] at h

theorem truncVal_str_bound (maxStr : Nat) (v : FieldVal) (s : Str)
    (h : truncVal maxStr v = .vstr s) : s.length ≤ maxStr := by
  rcases truncVal_str_le maxStr v s h with h1 | h2
  · exact h1
  · subst h2
    by_cases hl : maxStr < s.length
    · simp [truncVal, hl] at h
      omega
    · omega

theorem lookupField_cons (k a : Str) (v : FieldVal) (t : Player) :
    lookupField k ((a, v) :: t) = if a = k then some v else lookupField k t := by
  by_cases h : a = k <;> simp [lookupField, List.find?_cons, h]

theorem slimPlayer_cons_some (a : Str) (as : List Str) (maxStr : Nat) (p : Player)
    (v : FieldVal) (h : lookupField a p = some v) :
    slimPlayer (a :: as) maxStr p = (a, truncVal maxStr v) :: slimPlayer as maxStr p := by
  rw [slimPlayer, List.filterMap_cons, h]
  rfl

theorem slimPlayer_cons_none (a : Str) (as : List Str) (maxStr : Nat) (p : Player)
    (h : lookupField a p = none) :
    slimPlayer (a :: as) maxStr p = slimPlayer as maxStr p := by
  rw [slimPlayer, List.filterMap_cons, h]
  rfl

theorem slimPlayer_lookup_le (allowed : List Str) (maxStr : Nat) (p : Player)
    (k : Str) (s : Str)
    (h : lookupField k (slimPlayer allowed maxStr p) = some (.vstr s)) :
    s.length ≤ maxStr := by
  induction allowed with
  | nil => simp [slimPlayer, lookupField] at h
  | cons a as ih =>
    cases hl : lookupField a p with
    | none =>
      rw [slimPlayer_cons_none a as maxStr p hl] at h
      exact ih h
    | some v =>
      rw [slimPlayer_cons_some a as maxStr p v hl, lookupField_cons] at h
      by_cases hk : a = k
      · rw [if_pos hk] at h
        exact truncVal_str_bound maxStr v s (by injection h)
      · rw [if_neg hk] at h
        exact ih h

theorem slimPlayers_getD (allowed : List Str) (maxN maxStr : Nat)
    (players : List Player) (i : Nat) (h : i < min maxN players.length) :
    (slimPlayers allowed maxN maxStr players).getD i [] =
      slimPlayer allowed maxStr (players.getD i []) := by
  have h1 : i < maxN := lt_of_lt_of_le h (Nat.min_le_left _ _)
  have h2 : i < players.length := lt_of_lt_of_le h (Nat.min_le_right _ _)
  rw [slimPlayers, List.getD_eq_getElem?_getD, List.getElem?_map,
    List.getElem?_take, if_pos h1, List.getElem?_eq_getElem h2,
    List.getD_eq_getElem?_getD, List.getElem?_eq_getElem h2]
  rfl

/-- C8: the Request Builder caps the array at the configured maximum
keeping the original order, retains per element exactly the allow-listed
fields the element has, and truncates every retained string field to the
configured maximum length. -/
theorem slimPlayers_claim_c8 (allowed : List Str) (maxN maxStr : Nat)
    (players : List Player) (i : Nat) (h : i < min maxN players.length) :
    (slimPlayers allowed maxN maxStr players).length = min maxN players.length
    ∧ (slimPlayers allowed maxN maxStr players).getD i [] =
        slimPlayer allowed maxStr (players.getD i [])
    ∧ fieldKeys ((slimPlayers allowed maxN maxStr players).getD i []) =
        allowed.filter (fun k => hasField k (players.getD i []))
    ∧ (∀ k s, lookupField k ((slimPlayers allowed maxN maxStr players).getD i []) =
        some (.vstr s) → s.length ≤ maxStr) := by
  refine ⟨by simp [slimPlayers], slimPlayers_getD allowed maxN maxStr players i h, ?_, ?_⟩
  · rw [slimPlayers_getD allowed maxN maxStr players i h]
    exact slimPlayer_keys allowed maxStr (players.getD i [])
  · intro k s hs
    rw [slimPlayers_getD allowed maxN maxStr players i h] at hs
    exact slimPlayer_lookup_le allowed maxStr (players.getD i []) k s hs

/-- C8 witness: 260 elements against a limit of 200 give exactly 200
slimmed elements, each with the allow-listed fields of the original and
strings capped at the configured length. -/
theorem slimPlayers_claim_c8_witness :
    (slimPlayers cAllowed 200 5 cPlayers260).length = 200
    ∧ (slimPlayers cAllowed 200 5 cPlayers260).getD 0 [] =
        slimPlayer cAllowed 5 (cPlayers260.getD 0 [])
    ∧ fieldKeys ((slimPlayers cAllowed 200 5 cPlayers260).getD 0 []) =
        cAllowed.filter (fun k => hasField k (cPlayers260.getD 0 []))
    ∧ (∀ k s, lookupField k ((slimPlayers cAllowed 200 5 cPlayers260).getD 0 []) =
        some (.vstr s) → s.length ≤ 5) := by
  have h := slimPlayers_claim_c8 cAllowed 200 5 cPlayers260 0
    (by rw [cPlayers260, List.length_replicate]; decide)
  exact ⟨h.1.trans (by rw [cPlayers260, List.length_replicate]; decide), h.2.1, h.2.2.1, h.2.2.2⟩

/-! ## Lemmas about the frame extraction loop -/

theorem sseSplitFrame_decomp :
    ∀ (s f r : Str), sseSplitFrame s = some (f, r) → s = f ++ '\n' :: '\n' :: r := by
  intro s
  induction s with
  | nil => intro f r h; simp [sseSplitFrame] at h
  | cons c t ih =>
    intro f r h
    rw [sseSplitFrame] at h
    by_cases hc : c = '\n' ∧ t.head? = some '\n'
    · rw [if_pos hc] at h
      obtain ⟨hc1, hc2⟩ := hc
      cases t with
      | nil => simp at hc2
      | cons u t2 =>
        simp at hc2
        simp at h
        obtain ⟨hf, hr⟩ := h
        subst hf
        subst hc1
        subst hc2
        simp [← hr]
    · rw [if_neg hc] at h
      cases hsp : sseSplitFrame t with
      | none => rw [hsp] at h; simp at h
      | some fr =>
        obtain ⟨f2, r2⟩ := fr
        rw [hsp] at h
        simp at h
        obtain ⟨hf, hr⟩ := h
        have := ih f2 r2 hsp
        subst hr
        simp [← hf, this]

theorem sseSplitFrame_length (s f r : Str) (h : sseSplitFrame s = some (f, r)) :
    r.length < s.length := by
  have hd := sseSplitFrame_decomp s f r h
  rw [hd]
  simp
  omega

theorem sseSplitFrame_append (b : Str) :
    ∀ (a f r : Str), sseSplitFrame a = some (f, r) →
      sseSplitFrame (a ++ b) = some (f, r ++ b) := by
  intro a
  induction a with
  | nil => intro f r h; simp [sseSplitFrame] at h
  | cons c t ih =>
    intro f r h
    rw [sseSplitFrame] at h
    rw [List.cons_append, sseSplitFrame]
    by_cases hc : c = '\n' ∧ t.head? = some '\n'
    · rw [if_pos hc] at h
      obtain ⟨hc1, hc2⟩ := hc
      cases t with
      | nil => simp at hc2
      | cons u t2 =>
        simp at hc2
        simp at h
        obtain ⟨hf, hr⟩ := h
        subst hc1 hc2 hf
        rw [if_pos (by simp)]
        simp [← hr]
    · rw [if_neg hc] at h
      cases hsp : sseSplitFrame t with
      | none => rw [hsp] at h; simp at h
      | some fr =>
        obtain ⟨f2, r2⟩ := fr
        rw [hsp] at h
        simp at h
        obtain ⟨hf, hr⟩ := h
        cases t with
        | nil => simp [sseSplitFrame] at hsp
        | cons u t2 =>
          have hcb : ¬(c = '\n' ∧ ((u :: t2) ++ b).head? = some '\n') := by
            simp at hc ⊢
            intro h1 h2
            exact (hc h1) h2
          rw [if_neg hcb]
          rw [ih f2 r2 hsp]
          simp [← hf, hr]

theorem sseExtractFuel_congr :
    ∀ (n m : Nat) (s : Str), s.length ≤ n → s.length ≤ m →
      sseExtractFuel n s = sseExtractFuel m s := by
  intro n
  induction n with
  | zero =>
    intro m s hn _
    have : s = [] := List.length_eq_zero.mp (Nat.le_zero.mp hn)
    subst this
    cases m with
    | zero => rfl
    | succ m2 => simp [sseExtractFuel, sseSplitFrame]
  | succ n2 ih =>
    intro m s hn hm
    cases m with
    | zero =>
      have : s = [] := List.length_eq_zero.mp (Nat.le_zero.mp hm)
      subst this
      simp [sseExtractFuel, sseSplitFrame]
    | succ m2 =>
      rw [sseExtractFuel, sseExtractFuel]
      cases hsp : sseSplitFrame s with
      | none => rfl
      | some fr =>
        obtain ⟨f, r⟩ := fr
        have hlt := sseSplitFrame_length s f r hsp
        have h1 : r.length ≤ n2 := by omega
        have h2 : r.length ≤ m2 := by omega
        simp [ih m2 r h1 h2]

theorem sseExtractFuel_eq_extract (n : Nat) (s : Str) (h : s.length ≤ n) :
    sseExtractFuel n s = sseExtract s :=
  sseExtractFuel_congr n s.length s h le_rfl

theorem sseExtract_eq_none (s : Str) (h : sseSplitFrame s = none) :
    sseExtract s = ([], s) := by
  cases s with
  | nil => rfl
  | cons c t => simp [sseExtract, sseExtractFuel, h]

theorem sseExtract_eq_some (s f r : Str) (h : sseSplitFrame s = some (f, r)) :
    sseExtract s = (f :: (sseExtract r).1, (sseExtract r).2) := by
  cases s with
  | nil => simp [sseSplitFrame] at h
  | cons c t =>
    have hlt := sseSplitFrame_length (c :: t) f r h
    rw [sseExtract]
    simp only [List.length_cons]
    rw [sseExtractFuel, h]
    dsimp only
    rw [sseExtractFuel_eq_extract t.length r (by simp at hlt; omega)]

theorem sseExtract_residue (s : Str) : sseSplitFrame (sseExtract s).2 = none := by
  generalize hn : s.length = n
  induction n using Nat.strong_induction_on generalizing s with
  | _ n ih =>
    cases hsp : sseSplitFrame s with
    | none => rw [sseExtract_eq_none s hsp]; exact hsp
    | some fr =>
      obtain ⟨f, r⟩ := fr
      rw [sseExtract_eq_some s f r hsp]
      have hlt := sseSplitFrame_length s f r hsp
      exact ih r.length (by omega) r rfl

theorem sseExtract_append (a b : Str) :
    sseExtract (a ++ b) =
      ((sseExtract a).1 ++ (sseExtract ((sseExtract a).2 ++ b)).1,
       (sseExtract ((sseExtract a).2 ++ b)).2) := by
  generalize hn : a.length = n
  induction n using Nat.strong_induction_on generalizing a with
  | _ n ih =>
    cases hsp : sseSplitFrame a with
    | none => rw [sseExtract_eq_none a hsp]; simp
    | some fr =>
      obtain ⟨f, r⟩ := fr
      have hab := sseSplitFrame_append b a f r hsp
      have hlt := sseSplitFrame_length a f r hsp
      rw [sseExtract_eq_some a f r hsp, sseExtract_eq_some (a ++ b) f (r ++ b) hab]
      rw [ih r.length (by omega) r rfl]
      simp

theorem sseRunFrom_join (cs : List Str) :
    ∀ (buf : Str), sseSplitFrame buf = none →
      sseRunFrom buf cs = sseExtract (buf ++ cs.flatten) := by
  induction cs with
  | nil =>
    intro buf h
    rw [sseRunFrom]
    simp [sseExtract_eq_none buf h]
  | cons c cs2 ih =>
    intro buf h
    rw [sseRunFrom]
    have hres := sseExtract_residue (buf ++ c)
    rw [ih (sseExtract (buf ++ c)).2 hres]
    have happ := sseExtract_append (buf ++ c) cs2.flatten
    simp only [List.flatten_cons, ← List.append_assoc]
    rw [happ]

theorem sseRunFrom_nil_join (cs : List Str) :
    sseRunFrom [] cs = sseExtract cs.flatten := by
  have h := sseRunFrom_join cs [] (by rfl)
  simpa using h

/-- C9: frame extraction is chunking-invariant — any two chunkings of the
same logical byte sequence (one-byte-at-a-time included) yield the
identical ordered sequence of frames, with data-prefixed lines extracted
and decoded and the literal `[DONE]` payload skipped. -/
theorem sseFrames_claim_c9 (dec : Str → Option DifyEvent) (cs1 cs2 : List Str)
    (h : cs1.flatten = cs2.flatten) : sseFrames dec cs1 = sseFrames dec cs2 := by
  rw [sseFrames, sseFrames, sseRunFrom_nil_join, sseRunFrom_nil_join, h]

/-- C9 witness: a concrete two-frame stream (with a `[DONE]` data line
straddled by the frame terminator) delivered one character per chunk
produces the same frames as the whole stream in a single chunk, and the
`[DONE]` payload emits no frame. -/
theorem sseFrames_claim_c9_witness :
    c9Chunks1.flatten = c9Chunks2.flatten
    ∧ sseFrames jsonTable c9Chunks1 = sseFrames jsonTable c9Chunks2
    ∧ sseFrames jsonTable c9Chunks2 = [PassFrame.evt endEvt] := by
  refine ⟨by decide, sseFrames_claim_c9 jsonTable c9Chunks1 c9Chunks2 (by decide), by decide⟩

/-! ## Lemmas about the buffered aggregation loop -/

theorem jsSplitNl_no_nl (a : Str) (h : '\n' ∉ a) : jsSplitNl a = [a] := by
  induction a with
  | nil => rfl
  | cons c t ih =>
    have hc : c ≠ '\n' := by intro hc; exact h (hc ▸ List.mem_cons_self c t)
    have ht : '\n' ∉ t := fun hm => h (List.mem_cons_of_mem c hm)
    simp only [jsSplitNl, List.foldr_cons] at ih ⊢
    rw [ih ht]
    simp [hc]

theorem jsSplitNl_append_nl (a : Str) (h : '\n' ∉ a) :
    jsSplitNl (a ++ ['\n']) = [a, []] := by
  induction a with
  | nil => rfl
  | cons c t ih =>
    have hc : c ≠ '\n' := by intro hc; exact h (hc ▸ List.mem_cons_self c t)
    have ht : '\n' ∉ t := fun hm => h (List.mem_cons_of_mem c hm)
    simp only [jsSplitNl, List.foldr_cons, List.cons_append] at ih ⊢
    rw [ih ht]
    simp [hc]

theorem isPrefixOf_append_self : ∀ (a b : Str), List.isPrefixOf a (a ++ b) = true := by
  intro a b
  induction a with
  | nil => simp [List.isPrefixOf]
  | cons c t ih => simp [List.isPrefixOf, ih]

theorem runLines_single (dec : Str → Option DifyEvent) (st : BufState) (l : Str) :
    runLines dec st [l] = (processLine dec st l).1 := by
  rw [runLines]
  by_cases h : (processLine dec st l).2 <;> simp [h, runLines]

theorem processLine_data (dec : Str → Option DifyEvent) (st : BufState) (p : Str) :
    processLine dec st ("data: ".data ++ p) =
      (match dec p with
       | none => (st, false)
       | some d =>
         match dispatchEvent st d with
         | .ok r => r
         | .error _ => (st, false)) := by
  rw [processLine, if_pos (isPrefixOf_append_self ("data: ".data) p)]
  rw [show (6 : Nat) = ("data: ".data).length from rfl, List.drop_left]

theorem feedChunk_data (dec : Str → Option DifyEvent) (st : BufState) (p : Str)
    (h : '\n' ∉ p) :
    feedChunk dec ⟨[], st⟩ (mkDataChunk p) =
      ⟨[], (processLine dec st ("data: ".data ++ p)).1⟩ := by
  have hnl : '\n' ∉ "data: ".data ++ p := by
    intro hm
    rcases List.mem_append.mp hm with h1 | h2
    · exact (by decide : ('\n' ∈ "data: ".data) = False) ▸ h1
    · exact h h2
  rw [feedChunk, mkDataChunk]
  simp only [List.nil_append]
  rw [jsSplitNl_append_nl ("data: ".data ++ p) hnl]
  simp [runLines_single]

theorem dispatchEvent_msg (st : BufState) (d : Str) :
    dispatchEvent st (msgEvt d) =
      .ok (⟨st.finalAnswer ++ d, st.finalConvId, st.messageId⟩, false) := by
  simp [dispatchEvent, msgEvt, jsOrStr]

theorem dispatchEvent_end (st : BufState) :
    dispatchEvent st endEvt = .ok (st, true) := by
  simp [dispatchEvent, endEvt]

theorem runChunks_msgs (dec : Str → Option DifyEvent) (enc : Str → Str)
    (ds : List Str) (st0 : BufState)
    (hds : ∀ d ∈ ds, dec (enc d) = some (msgEvt d))
    (hnl : ∀ d ∈ ds, '\n' ∉ enc d) :
    runChunks dec ⟨[], st0⟩ (ds.map (fun d => mkDataChunk (enc d))) =
      ⟨[], ⟨st0.finalAnswer ++ ds.flatten, st0.finalConvId, st0.messageId⟩⟩ := by
  induction ds generalizing st0 with
  | nil => simp [runChunks]
  | cons d ds2 ih =>
    simp only [List.map_cons, runChunks, List.foldl_cons]
    rw [feedChunk_data dec st0 (enc d) (hnl d (List.mem_cons_self d ds2)),
      processLine_data, hds d (List.mem_cons_self d ds2)]
    dsimp only
    rw [dispatchEvent_msg]
    dsimp only
    have ih2 := ih ⟨st0.finalAnswer ++ d, st0.finalConvId, st0.messageId⟩
      (fun x hx => hds x (List.mem_cons_of_mem d hx))
      (fun x hx => hnl x (List.mem_cons_of_mem d hx))
    rw [runChunks] at ih2
    rw [ih2]
    simp

theorem runChunks_msgsEnd (dec : Str → Option DifyEvent) (enc : Str → Str)
    (ds : List Str) (endP : Str) (st0 : BufState)
    (hds : ∀ d ∈ ds, dec (enc d) = some (msgEvt d))
    (hnl : ∀ d ∈ ds, '\n' ∉ enc d)
    (hend : dec endP = some endEvt) (hendnl : '\n' ∉ endP) :
    runChunks dec ⟨[], st0⟩
        (ds.map (fun d => mkDataChunk (enc d)) ++ [mkDataChunk endP]) =
      ⟨[], ⟨st0.finalAnswer ++ ds.flatten, st0.finalConvId, st0.messageId⟩⟩ := by
  rw [runChunks, List.foldl_append]
  have h1 := runChunks_msgs dec enc ds st0 hds hnl
  rw [runChunks] at h1
  rw [h1]
  simp only [List.foldl_cons, List.foldl_nil]
  rw [feedChunk_data dec _ endP hendnl, processLine_data, hend]
  dsimp only
  rw [dispatchEvent_end]

/-- C5: a well-formed buffered stream of message frames followed by the
terminal frame ends successfully, and the answer is the concatenation of
the message deltas in arrival order (the finalize pass leaving that
concatenation unchanged). -/
theorem buffered_claim_c5 (dec : Str → Option DifyEvent) (enc : Str → Str)
    (ds : List Str) (endP : Str) (cid : Option Str) (tms : Nat)
    (hds : ∀ d ∈ ds, dec (enc d) = some (msgEvt d))
    (hnl : ∀ d ∈ ds, '\n' ∉ enc d)
    (hend : dec endP = some endEvt) (hendnl : '\n' ∉ endP)
    (hwf : jsTrim (stripThink ds.flatten) = ds.flatten) :
    postStreamingBuffered dec tms cid
        (ds.map (fun d => mkDataChunk (enc d)) ++ [mkDataChunk endP]) .done =
      ⟨true, ds.flatten, cid, none, [], []⟩ := by
  rw [postStreamingBuffered,
    runChunks_msgsEnd dec enc ds endP ⟨[], cid, none⟩ hds hnl hend hendnl]
  have hfin : finalizeAnswer ds.flatten = ds.flatten := by
    rw [finalizeAnswer]
    split
    · rfl
    · exact hwf
  simp [hfin]

/-- C5 witness: the two-delta stream `Hel`, `lo` then `message_end`
buffers to the answer `Hello` with the session reported successful. -/
theorem buffered_claim_c5_witness :
    postStreamingBuffered jsonTable 1000 none
        ((["Hel".data, "lo".data].map (fun d => mkDataChunk (encTable d)))
          ++ [mkDataChunk pEnd]) .done =
      ⟨true, "Hello".data, none, none, [], []⟩ := by
  have h := buffered_claim_c5 jsonTable encTable ["Hel".data, "lo".data] pEnd none 1000
    (by decide) (by decide) (by decide) (by decide) (by decide)
  exact h.trans (by decide)

/-- C7: during accumulation the answer is the verbatim concatenation of
the deltas (markup intact), and the buffered result applies the
strip-and-trim pass exactly once, to the finalized answer. -/
theorem buffered_claim_c7 (dec : Str → Option DifyEvent) (enc : Str → Str)
    (ds : List Str) (endP : Str) (cid : Option Str) (tms : Nat)
    (hds : ∀ d ∈ ds, dec (enc d) = some (msgEvt d))
    (hnl : ∀ d ∈ ds, '\n' ∉ enc d)
    (hend : dec endP = some endEvt) (hendnl : '\n' ∉ endP) :
    (runChunks dec ⟨[], ⟨[], cid, none⟩⟩
        (ds.map (fun d => mkDataChunk (enc d)) ++ [mkDataChunk endP])).st.finalAnswer =
      ds.flatten
    ∧ postStreamingBuffered dec tms cid
        (ds.map (fun d => mkDataChunk (enc d)) ++ [mkDataChunk endP]) .done =
      ⟨true, finalizeAnswer ds.flatten, cid, none, [], []⟩ := by
  constructor
  · rw [runChunks_msgsEnd dec enc ds endP ⟨[], cid, none⟩ hds hnl hend hendnl]
    simp
  · rw [postStreamingBuffered,
      runChunks_msgsEnd dec enc ds endP ⟨[], cid, none⟩ hds hnl hend hendnl]
    simp

/-- C7 witness: the accumulated answer keeps the markup
`<think>ignore</think>Hello` verbatim through the loop, and finalization
strips it to `Hello`. -/
theorem buffered_claim_c7_witness :
    (runChunks jsonTable ⟨[], ⟨[], none, none⟩⟩
        ((["<think>ignore</think>Hello".data].map (fun d => mkDataChunk (encTable d)))
          ++ [mkDataChunk pEnd])).st.finalAnswer = "<think>ignore</think>Hello".data
    ∧ postStreamingBuffered jsonTable 1000 none
        ((["<think>ignore</think>Hello".data].map (fun d => mkDataChunk (encTable d)))
          ++ [mkDataChunk pEnd]) .done =
      ⟨true, "Hello".data, none, none, [], []⟩ := by
  have h := buffered_claim_c7 jsonTable encTable ["<think>ignore</think>Hello".data]
    pEnd none 1000 (by decide) (by decide) (by decide) (by decide)
  exact ⟨h.1.trans (by decide), h.2.trans (by decide)⟩

/-! ## Error-path lemmas -/

theorem isPrefixOf_append_mono :
    ∀ (p x b : Str), List.isPrefixOf p x = true → List.isPrefixOf p (x ++ b) = true := by
  intro p
  induction p with
  | nil => intro x b _; cases x ++ b <;> rfl
  | cons a p2 ih =>
    intro x b h
    cases x with
    | nil => exact absurd h (by simp [List.isPrefixOf])
    | cons c x2 =>
      rw [List.cons_append]
      have he : List.isPrefixOf (a :: p2) (c :: x2) = ((a == c) && List.isPrefixOf p2 x2) := rfl
      rw [he] at h
      obtain ⟨h1, h2⟩ := Bool.and_eq_true_iff.mp h
      have he2 : List.isPrefixOf (a :: p2) (c :: (x2 ++ b)) =
          ((a == c) && List.isPrefixOf p2 (x2 ++ b)) := rfl
      rw [he2, h1, ih x2 b h2]
      rfl

theorem containsSeq_append_left (nee a b : Str) (h : containsSeq nee a = true) :
    containsSeq nee (a ++ b) = true := by
  induction a with
  | nil =>
    rw [containsSeq] at h
    have : nee = [] := by simpa using h
    subst this
    cases b with
    | nil => rfl
    | cons c t => simp [containsSeq, List.isPrefixOf]
  | cons c t ih =>
    rw [containsSeq] at h
    rw [List.cons_append, containsSeq]
    rcases Bool.or_eq_true_iff.mp h with h1 | h2
    · have hm := isPrefixOf_append_mono nee (c :: t) b h1
      rw [List.cons_append] at hm
      rw [hm]
      rfl
    · rw [ih h2]
      simp

theorem containsSeq_timeout_msg (tms : Nat) :
    containsSeq ("timeout".data)
      ("Stream timeout after ".data ++ natStr tms ++ "ms".data) = true := by
  rw [List.append_assoc]
  exact containsSeq_append_left ("timeout".data) ("Stream timeout after ".data)
    (natStr tms ++ "ms".data) (by decide)

theorem classify_timeout_msg (tms : Nat) :
    classifyBufferedError ("Error".data,
      "Stream timeout after ".data ++ natStr tms ++ "ms".data) = "timeout".data := by
  dsimp only [classifyBufferedError]
  rw [containsSeq_timeout_msg tms]
  simp

/-- C10: any abort of the in-flight buffered read loop — deadline timer
or caller-supplied signal alike — yields the failure result with error
kind `timeout` and message `Stream timeout after <timeoutMs>ms`; the two
abort causes are indistinguishable in the buffered result. -/
theorem buffered_claim_c10 (dec : Str → Option DifyEvent) (tms : Nat)
    (cid : Option Str) (chunks : List Str) (cause : AbortCause) :
    postStreamingBuffered dec tms cid chunks (.exc (.abortErr cause)) =
      ⟨false, [], none, none, "timeout".data,
        "Stream timeout after ".data ++ natStr tms ++ "ms".data⟩
    ∧ postStreamingBuffered dec tms cid chunks (.exc (.abortErr .deadline)) =
      postStreamingBuffered dec tms cid chunks (.exc (.abortErr .callerSignal)) := by
  have hmsg : ∀ c : AbortCause,
      postStreamingBuffered dec tms cid chunks (.exc (.abortErr c)) =
        ⟨false, [], none, none, "timeout".data,
          "Stream timeout after ".data ++ natStr tms ++ "ms".data⟩ := by
    intro c
    rw [postStreamingBuffered]
    dsimp only [innerCatch]
    rw [classify_timeout_msg tms]
  exact ⟨hmsg cause, (hmsg .deadline).trans (hmsg .callerSignal).symm⟩

/-- C4: the dispatch for an explicit `error` frame does raise, but the
raise sits inside the same try/catch that guards `JSON.parse`, so the
loop swallows it as a parse failure and continues: a stream carrying an
error frame, then a message frame, then the terminal frame still ends as
a success with the message content — the session is not terminated as a
failure. -/
theorem buffered_claim_c4 :
    dispatchEvent ⟨[], none, none⟩ errEvtBoom =
      .error ("Dify stream error: boom".data)
    ∧ processLine jsonTable ⟨[], none, none⟩ ("data: ".data ++ pErrBoom) =
      (⟨[], none, none⟩, false)
    ∧ postStreamingBuffered jsonTable 1000 none
        [mkDataChunk pErrBoom, mkDataChunk pMsgHello, mkDataChunk pEnd] .done =
      ⟨true, "Hello".data, none, none, [], []⟩ := by
  refine ⟨by rfl, by decide, by decide⟩

/-- C6 counterexample: a first message frame stores the non-empty
conversation id `A`, and a later frame carrying `B` overwrites it — the
stored id is not first-write-wins. -/
theorem buffered_claim_c6_counterexample :
    (processLine jsonTable ⟨[], none, none⟩
        ("data: ".data ++ pCidA)).1.finalConvId = some ("A".data)
    ∧ ("A".data : Str) ≠ []
    ∧ (processLine jsonTable
        (processLine jsonTable ⟨[], none, none⟩ ("data: ".data ++ pCidA)).1
        ("data: ".data ++ pCidB)).1.finalConvId = some ("B".data)
    ∧ (some ("B".data) : Option Str) ≠ some ("A".data)
    ∧ postStreamingBuffered jsonTable 1000 none
        [mkDataChunk pCidA, mkDataChunk pCidB, mkDataChunk pEnd] .done =
      ⟨true, "xy".data, some ("B".data), none, [], []⟩ := by
  refine ⟨by decide, by decide, by decide, by decide, by decide⟩

/-- C6 amended: the conversation id update of a message frame is
last-non-empty-write-wins — a truthy (non-empty) incoming id always
overwrites the stored value, and a missing or empty incoming id leaves
it unchanged. -/
theorem buffered_claim_c6 (st : BufState) (d : DifyEvent)
    (h : d.event = "message".data) :
    dispatchEvent st d =
      .ok (⟨st.finalAnswer ++ d.answer.getD [],
            jsOrStr d.conversation_id st.finalConvId,
            jsOrStr d.id st.messageId⟩, false)
    ∧ (∀ c, d.conversation_id = some c → c ≠ [] →
        jsOrStr d.conversation_id st.finalConvId = some c)
    ∧ (d.conversation_id = none →
        jsOrStr d.conversation_id st.finalConvId = st.finalConvId)
    ∧ (d.conversation_id = some [] →
        jsOrStr d.conversation_id st.finalConvId = st.finalConvId) := by
  refine ⟨by rw [dispatchEvent, if_pos h], ?_, ?_, ?_⟩
  · intro c hc hne
    rw [hc, jsOrStr]
    simp [hne]
  · intro hc
    rw [hc, jsOrStr]
  · intro hc
    rw [hc, jsOrStr]
    simp

/-- C6 amended witness: with `A` stored, a frame carrying `B` makes the
stored id `B`. -/
theorem buffered_claim_c6_witness :
    dispatchEvent ⟨"x".data, some ("A".data), none⟩ (cidEvt ("y".data) ("B".data)) =
      .ok (⟨"xy".data, some ("B".data), none⟩, false)
    ∧ jsOrStr (some ("B".data)) (some ("A".data)) = some ("B".data) := by
  have h := buffered_claim_c6 ⟨"x".data, some ("A".data), none⟩
    (cidEvt ("y".data) ("B".data)) (by decide)
  exact ⟨h.1.trans (by rfl), h.2.1 ("B".data) rfl (by decide)⟩

/-- C3: a pass-through session cancelled mid-stream writes exactly one
error record — of kind `timeout` — when the abort reason is the elapsed
deadline, and zero error records when the caller disconnected. -/
theorem passthrough_claim_c3 (pre : List DifyEvent) (reason : AbortReason)
    (dbg ca : Bool) (h : ∀ e ∈ pre, e.event ≠ "error".data) :
    ((cancelledPassThrough pre reason dbg ca).filter isErrorRec).length =
      (match reason with | .rTimeout => 1 | .rClient => 0)
    ∧ (cancelledPassThrough pre .rTimeout dbg ca).filter isErrorRec =
      [⟨"error".data, some ("timeout".data),
        some ("Stream timeout after 235s".data)⟩] := by
  have hpre : (pre.map fwdRec).filter isErrorRec = [] := by
    rw [List.filter_eq_nil_iff]
    intro r hr
    obtain ⟨e, he, rfl⟩ := List.mem_map.mp hr
    simp [fwdRec, isErrorRec]
    exact h e he
  constructor
  · rw [cancelledPassThrough, List.filter_append, hpre, List.nil_append]
    cases reason <;> cases hdc : (dbg && ca) <;> simp only [draftCatchAbort, hdc] <;> decide
  · rw [cancelledPassThrough, List.filter_append, hpre, List.nil_append]
    cases hdc : (dbg && ca) <;> simp only [draftCatchAbort, hdc] <;> decide

/-- C3 witness: one forwarded message frame, then a deadline abort —
exactly one `timeout` error record; the same prefix with a caller
disconnect — zero error records. -/
theorem passthrough_claim_c3_witness :
    ((cancelledPassThrough [msgEvt ("Hel".data)] .rTimeout false false).filter
      isErrorRec).length = 1
    ∧ ((cancelledPassThrough [msgEvt ("Hel".data)] .rClient false false).filter
      isErrorRec).length = 0 := by
  have h1 := passthrough_claim_c3 [msgEvt ("Hel".data)] .rTimeout false false (by decide)
  have h2 := passthrough_claim_c3 [msgEvt ("Hel".data)] .rClient false false (by decide)
  exact ⟨h1.1, h2.1⟩

/-- C1 (amended): the pass-through route proceeds to frame parsing only
when the status is ok AND the content type declares an event stream, and
otherwise emits the single `bad_upstream_status` record with a bounded
(200-character) body preview and parses no frames; the unified client
checks only the status before streaming — a non-ok response is thrown as
a classified error (with a bounded 600-character body snippet) before any
frame is consumed, but the content type is never consulted. -/
theorem preflight_claim_c1 (dec : Str → Option DifyEvent) (status : Nat)
    (ct body : Str) (chunks : List Str) :
    ((statusOkB status && ctIsEventStream ct) = true →
      draftInitSession dec status ct body chunks = (none, sseFrames dec chunks))
    ∧ ((statusOkB status && ctIsEventStream ct) = false →
      draftInitSession dec status ct body chunks =
        (some ⟨status, ct, body.take 200⟩, []))
    ∧ (statusOkB status = false →
      unifiedPreflight status body = .error (mapResponseError status body))
    ∧ (mapResponseError status body).snippet = body.take 600 := by
  refine ⟨?_, ?_, ?_, ?_⟩
  · intro h
    rw [draftInitSession, draftPreflight, if_pos h]
  · intro h
    rw [draftInitSession, draftPreflight,
      if_neg (by rw [h]; exact Bool.false_ne_true)]
  · intro h
    rw [unifiedPreflight, if_neg (by rw [h]; exact Bool.false_ne_true)]
  · rw [mapResponseError]
    by_cases h1 : (status = 404 && containsSeq ("conversation".data) (toLowerStr body)) = true
    · rw [if_pos h1]
    · rw [if_neg h1]
      by_cases h2 : 500 ≤ status
      · rw [if_pos h2]
      · rw [if_neg h2]

/-- C1 witness: the 401 `application/json` response with body
containing `unauthorized` is rejected by the route preflight with one
`bad_upstream_status` record whose preview contains the body text, and no
frames are parsed. -/
theorem preflight_claim_c1_witness :
    draftInitSession jsonTable 401 ("application/json".data) uBody [] =
      (some ⟨401, "application/json".data, uBody.take 200⟩, [])
    ∧ containsSeq ("unauthorized".data) (uBody.take 200) = true := by
  exact ⟨(preflight_claim_c1 jsonTable 401 ("application/json".data) uBody []).2.1
    (by decide), by decide⟩

/-- C1 counterexample: the unified client lets a success-status response
with content type `application/json` proceed to frame parsing (its
preflight never consults the content type), and classifies a 401 as
`bad_request`, not `bad_upstream_status` — so the claim, universally over
the sessions of both implementations, is false. -/
theorem preflight_claim_c1_counterexample :
    unifiedPreflight 200 [] = .ok ()
    ∧ ctIsEventStream ("application/json".data) = false
    ∧ (mapResponseError 401 uBody).kind = "bad_request".data
    ∧ ("bad_request".data : Str) ≠ "bad_upstream_status".data := by
  refine ⟨by rfl, by decide, by decide, by decide⟩

/-- C2: the unified client reaches a mid-session state (connection open,
frames still to be consumed) with the overall deadline already disarmed —
it clears the timer right after the fetch resolves — whereas the
pass-through route keeps the deadline armed at every mid-session state
and disarms it only at teardown. -/
theorem deadline_claim_c2 :
    (midSession ((unifiedStreamScript 3).take 3) = true
      ∧ deadlineArmed ((unifiedStreamScript 3).take 3) = false)
    ∧ ((List.range ((draftInitScript 3).length + 1)).all
        (fun k => !(midSession ((draftInitScript 3).take k))
          || deadlineArmed ((draftInitScript 3).take k)) = true) := by
  refine ⟨⟨by decide, by decide⟩, by decide⟩
